import Mathlib

/-!
Verification of the `@substrate-system/anchor` library (`src/index.ts`)
against its natural-language specification.

The TypeScript source is shallowly embedded below.  DOM state (the headings
matched by a scan, the set of existing `id` attributes elsewhere in the
document, the `<base>`-tag flag, the injected style marker, touch capability)
is made explicit as a `Doc` structure that the embedded operations transform.
Strings are Lean `String`s (lists of characters; the UTF-16 surrogate-pair
subtleties of JS string indexing are abstracted: truncation counts
characters).  The JS number the library computes with (`opts.truncate`) is
modelled as `ℚ`, which captures zero / negative / fractional values; `NaN` is
outside the model.  Thrown JS exceptions are modelled with `Except Unit`.
-/

/-! ## Options (source: `AnchorOpts`, `src/index.ts` lines 3-14)

Every option is optional (`Partial<AnchorOpts>`); `none` models a field that
is absent / `undefined`.  JS `||`-defaulting treats the empty string and the
number `0` as falsy, which the helpers below reproduce. -/

inductive Visible where
  | hover
  | always
  | touch
deriving DecidableEq

inductive Placement where
  | right
  | left
deriving DecidableEq

structure Opts where
  icon : Option String := none
  visible : Option Visible := none
  placement : Option Placement := none
  ariaLabel : Option String := none
  «class» : Option String := none
  base : Option String := none
  truncate : Option ℚ := none
  titleText : Option String := none
deriving DecidableEq

def emptyOpts : Opts := {}

/-- JS `x || d` for string-valued options: `undefined` and `""` are falsy. -/
def strOr (x : Option String) (d : String) : String :=
  match x with
  | none => d
  | some s => if s = "" then d else s

/-- JS string coercion of a possibly-`undefined` value (`'' + x`):
`undefined` prints as `"undefined"`. -/
def jsUndefStr (x : Option String) : String :=
  match x with
  | none => "undefined"
  | some s => s

/-- JS truthiness of the numeric option `opts.truncate`:
`undefined` and `0` are falsy, every other number is truthy. -/
def jsTruthyNum (x : Option ℚ) : Bool :=
  match x with
  | none => false
  | some q => q != 0

/-- The default icon glyph `''` (lines 28 and 41). -/
def defaultIcon : String := ""

/-- Source: `Anchor._applyRemainingDefaultOptions`, lines 39-52.
Fills every falsy field with its default; `truncate` additionally passes a
truthy value through `Math.floor` (note: a truthy value is floored, a falsy
one — `undefined` or `0` — is replaced by `64`; negative values are truthy
and therefore kept). -/
def _applyRemainingDefaultOptions (o : Opts) : Opts :=
  { icon := some (strOr o.icon defaultIcon)
    visible := some (o.visible.getD .hover)
    placement := some (o.placement.getD .right)
    ariaLabel := some (strOr o.ariaLabel "Anchor")
    «class» := some (strOr o.«class» "")
    base := some (strOr o.base "")
    truncate := some (match o.truncate with
      | none => 64
      | some q => if q = 0 then (64 : ℚ) else ((⌊q⌋ : ℤ) : ℚ))
    titleText := some (strOr o.titleText "") }

/-! ## The slug pipeline (source: `Anchor.urlify`, lines 99-128) -/

/-- Modelled from the spec: the browser-provided HTML entity decoding the
source performs through a detached `<textarea>` (lines 101-103) is not code
of this repository.  The spec says "Decode any markup/entity escaping present
in `text` (e.g., treat `&nbsp;` as its literal character)"; we decode the
entity the spec names (to U+00A0) and pass other text through unchanged. -/
def htmlDecodeGo : List Char → List Char
  | [] => []
  | '&' :: 'n' :: 'b' :: 's' :: 'p' :: ';' :: rest => ' ' :: htmlDecodeGo rest
  | c :: rest => c :: htmlDecodeGo rest

def htmlDecode (s : String) : String := ⟨htmlDecodeGo s.data⟩

/-- The whitespace class removed by JS `String.prototype.trim`
(ECMA-262 TrimString: WhiteSpace ∪ LineTerminator). -/
def isJsWhitespace (c : Char) : Bool :=
  c == ' ' || c == '\t' || c == '\n' || c == '\u000B' || c == '\u000C' ||
  c == '\r' || c == ' ' || c == '﻿' || c == ' ' ||
  (' ' ≤ c && c ≤ ' ') || c == ' ' || c == ' ' ||
  c == ' ' || c == ' ' || c == '　'

/-- JS `text.trim()`. -/
def jsTrim (l : List Char) : List Char :=
  ((l.dropWhile isJsWhitespace).reverse.dropWhile isJsWhitespace).reverse

/-- The character class of the `nonsafeChars` regex (line 108): ampersand,
space, and the characters `+$,:;=?@` quote `#` braces `|^~[` backtick
`%!` apostrophe `<>]./()*` backslash, plus newline, tab, backspace,
vertical tab and the non-breaking space. -/
def nonsafeChars : List Char :=
  ['&', ' ', '+', '$', ',', ':', ';', '=', '?', '@', Char.ofNat 34, '#',
   Char.ofNat 123, Char.ofNat 125, '|', '^', '~', '[', Char.ofNat 96, '%', '!',
   Char.ofNat 39,
   '<', '>', ']', '.', '/', '(', ')', '*', '\\', '\n', '\t', '\u0008',
   '\u000B', ' ']

/-- `.replace` of the apostrophe regex with the empty string (line 122) —
apostrophes are deleted, not replaced. -/
def removeApostrophes (l : List Char) : List Char :=
  l.filter (fun c => c != Char.ofNat 39)

/-- `.replace(nonsafeChars, hyphen)` — each unsafe character becomes one
hyphen (line 123). -/
def replaceNonsafe (l : List Char) : List Char :=
  l.map (fun c => if nonsafeChars.contains c then '-' else c)

/-- Collapse runs of two or more hyphens into one (line 124). -/
def collapseHyphens : List Char → List Char
  | [] => []
  | [c] => [c]
  | a :: b :: rest =>
    if a == '-' && b == '-' then collapseHyphens (b :: rest)
    else a :: collapseHyphens (b :: rest)

/-- The `end` argument of JS `substring(0, end)`: negative values clamp to 0,
fractional values are truncated toward zero (for positive `q` this is
`⌊q⌋`). -/
def jsSubstringEnd (q : ℚ) : Nat :=
  if q ≤ 0 then 0 else (⌊q⌋).toNat

/-- Strip leading and trailing hyphen runs of one string segment. -/
def dropHyphensEnds (l : List Char) : List Char :=
  ((l.dropWhile (· == '-')).reverse.dropWhile (· == '-')).reverse

/-- JS regex line terminators, relevant because the hyphen-trim regex on
line 126 carries the `m` (multiline) flag. -/
def isLineTerm (c : Char) : Bool :=
  c == '\n' || c == '\r' || c == ' ' || c == ' '

/-- Worker for the multiline edge-hyphen trim: hyphen runs adjacent to the
string boundaries or to a line terminator are removed.  `acc` holds the
current segment, reversed. -/
def stripMLGo (acc : List Char) : List Char → List Char
  | [] => dropHyphensEnds acc.reverse
  | c :: rest =>
    if isLineTerm c then dropHyphensEnds acc.reverse ++ c :: stripMLGo [] rest
    else stripMLGo (c :: acc) rest

/-- The multiline leading/trailing hyphen strip (line 126). -/
def stripEdgeHyphensML (l : List Char) : List Char := stripMLGo [] l

/-- `.toLowerCase()` (line 127), modelled with Lean's per-character lowercase
mapping (JS uses the Unicode simple case mapping; the difference does not
matter for the characters the claims exercise). -/
def toLowerList (l : List Char) : List Char := l.map Char.toLower

/-- Source: `Anchor.urlify`, lines 99-128.  The method reads and possibly
mutates `this.opts` (it re-applies all remaining defaults when
`opts.truncate` is falsy, lines 110-116), so it is modelled as a state
transformer on the options object, returning the slug together with the
options object after the call.  After the defaulting guard `opts.truncate`
is always defined, so the `getD 0` fallback is never taken. -/
def urlify (o : Opts) (text : String) : String × Opts :=
  let text := htmlDecode text
  let o := if jsTruthyNum o.truncate then o else _applyRemainingDefaultOptions o
  let truncEnd := jsSubstringEnd (o.truncate.getD 0)
  let slug : List Char :=
    toLowerList (stripEdgeHyphensML (List.take truncEnd
      (collapseHyphens (replaceNonsafe (removeApostrophes (jsTrim text.data))))))
  (⟨slug⟩, o)

/-! ## Decimal rendering of the collision counter

The collision loop builds candidates `tidyText + '-' + count` (line 194);
`count` is a nonnegative integer JS number, which stringifies to its plain
decimal representation.  A structurally recursive (hence kernel-evaluable)
decimal converter is defined here, with a parser used later to prove it
injective. -/

/-- Low-endian decimal digits of `n`; `fuel ≥ n` suffices. -/
def natDigitsRevGo : Nat → Nat → List Nat
  | 0, _ => []
  | _ + 1, 0 => []
  | fuel + 1, n + 1 => ((n + 1) % 10) :: natDigitsRevGo fuel ((n + 1) / 10)

def digitChar : Nat → Char
  | 0 => '0' | 1 => '1' | 2 => '2' | 3 => '3' | 4 => '4'
  | 5 => '5' | 6 => '6' | 7 => '7' | 8 => '8' | 9 => '9'
  | _ => '?'

/-- JS `String(count)` for a nonnegative integer `count`. -/
def jsNatRepr (n : Nat) : String :=
  if n = 0 then "0" else ⟨((natDigitsRevGo n n).map digitChar).reverse⟩

def charToDigit (c : Char) : Nat := c.toNat - 48

/-- Decimal value of a big-endian digit string (used only in proofs, to show
`jsNatRepr` is injective). -/
def decValRev : List Nat → Nat
  | [] => 0
  | d :: rest => d + 10 * decValRev rest

def parseDecimal (s : String) : Nat := decValRev ((s.data.map charToDigit).reverse)

/-! ## The DOM model

`Elem` models one element matched by a scan: its tag name, its `id` and
`data-anchor-id` attributes (`none` = attribute absent) and its child nodes.
A child node is a text node (whose `className` is `undefined` in JS), a
generic child element carrying a class string and text, or an anchor element
created by this library.  `Doc` holds the matched elements plus the document
state `add` reads and writes: the `id`s of all other elements (for the
Identifier Registry), the `<base>`-tag flag and current path+query (lines
225-227), the marker for the injected baseline style (line 326), and the
touch-capability probe (`isTouchDevice`, lines 61-69, an environment read
modelled as a boolean field). -/

/-- The DOM node `Anchor.add` builds on lines 215-269. -/
structure AnchorData where
  className : String
  ariaLabel : String
  dataIcon : String
  title : Option String
  href : String
  styleOpacity : Option String
  styleFont : Option String
  styleLineHeight : Option String
  stylePosition : Option String
  styleMarginLeft : Option String
  stylePaddingRight : Option String
  stylePaddingLeft : Option String
deriving DecidableEq

inductive ChildNode where
  | text (s : String)
  | elem (className : String) (textContent : String)
  | anchorNode (a : AnchorData)
deriving DecidableEq

structure Elem where
  tag : String
  id : Option String
  dataAnchorId : Option String
  children : List ChildNode
deriving DecidableEq

instance : Inhabited Elem := ⟨⟨"", none, none, []⟩⟩

structure Doc where
  headings : List Elem
  otherIds : List String
  hasBaseTag : Bool
  locationPathSearch : String
  styleInjected : Bool
  isTouch : Bool
deriving DecidableEq

/-- `className` of a child node: text nodes have none (JS `undefined`). -/
def ChildNode.className : ChildNode → Option String
  | .text _ => none
  | .elem c _ => some c
  | .anchorNode a => some a.className

/-- Text contributed by a child node to its parent's `textContent`
(anchors built by the library carry no text children). -/
def ChildNode.textOf : ChildNode → String
  | .text s => s
  | .elem _ t => t
  | .anchorNode _ => ""

/-- `el.textContent` of an element (never `null` for an element node). -/
def Elem.textContent (el : Elem) : String :=
  (el.children.map ChildNode.textOf).foldl (· ++ ·) ""

/-- `startsWithSeq pat l`: `pat` is a prefix of `l`. -/
def startsWithSeq : List Char → List Char → Bool
  | [], _ => true
  | _ :: _, [] => false
  | a :: as, b :: bs => a == b && startsWithSeq as bs

/-- `hasSubSeq pat l`: `pat` occurs contiguously in `l`
(JS `indexOf(pat) > -1`). -/
def hasSubSeq (pat : List Char) : List Char → Bool
  | [] => startsWithSeq pat []
  | l@(_ :: rest) => startsWithSeq pat l || hasSubSeq pat rest

/-- The search `(' ' + className + ' ').indexOf(' anchorjs-link ') > -1`
(lines 81 and 83); a missing (`undefined`) class stringifies to
`"undefined"`. -/
def containsAnchorMarker (cls : Option String) : Bool :=
  hasSubSeq (" anchorjs-link ").data (" " ++ jsUndefStr cls ++ " ").data

/-- Source: `Anchor.hasAnchorJSLink`, lines 77-86.  The method dereferences
`el.firstChild.className` and `el.lastChild.className` *before* the
truthiness guards on lines 80/82, so an element with no child nodes throws a
`TypeError` (modelled as `.error ()`).  With at least one child both reads
succeed and the guards are truthy, so the result is the marker test on the
first and last child. -/
def hasAnchorJSLink (el : Elem) : Except Unit Bool :=
  match el.children.head?, el.children.getLast? with
  | some f, some l =>
    .ok (containsAnchorMarker f.className || containsAnchorMarker l.className)
  | _, _ => .error ()

/-! ## Collision resolution (source: `Anchor.add`, lines 190-205)

The do/while loop first tests the unsuffixed slug; `count` is incremented
after each membership test, so the first suffixed candidate tried is
`tidy + '-' + 1`, then `-2`, and so on.  Only membership (`indexOf !== -1`)
of `idList` is consulted, so the registry is list-of-strings with `contains`.
The loop terminates because the candidates are pairwise distinct and the
registry is finite; `idList.length + 1` suffixed attempts therefore always
suffice, which the fuel makes explicit (the fuel-exhausted fallback is
unreachable, as proved below). -/

def collisionFrom (idList : List String) (tidy : String) : Nat → Nat → String
  | 0, count => tidy ++ "-" ++ jsNatRepr count
  | fuel + 1, count =>
    let cand := tidy ++ "-" ++ jsNatRepr count
    if idList.contains cand then collisionFrom idList tidy fuel (count + 1) else cand

def resolveCollision (idList : List String) (tidy : String) : String :=
  if idList.contains tidy then collisionFrom idList tidy (idList.length + 1) 1
  else tidy

/-! ## Anchor construction (source: `Anchor.add`, lines 208-269) -/

/-- The href base: `this.opts.base || (document.querySelector('base') ?
window.location.pathname + window.location.search : '')` (lines 225-228). -/
def hrefBaseOf (o : Opts) (doc : Doc) : String :=
  let hrefBase := if doc.hasBaseTag then doc.locationPathSearch else ""
  strOr o.base hrefBase

/-- Lines 215-269: the anchor element and its inline styles.  The
`console.log` calls on lines 235-237 have no modelled effect. -/
def buildAnchor (o : Opts) (doc : Doc) (elementID : String) : AnchorData :=
  { className := "anchorjs-link " ++ jsUndefStr o.«class»
    ariaLabel := jsUndefStr o.ariaLabel
    dataIcon := jsUndefStr o.icon
    title := match o.titleText with
      | some s => if s = "" then none else some s
      | none => none
    href := hrefBaseOf o doc ++ "#" ++ elementID
    styleOpacity :=
      if o.visible = some .always then some "1"
      else if o.visible = some .touch ∧ doc.isTouch then some "1"
      else none
    styleFont := if o.icon = some defaultIcon then some "1em/1 anchorjs-icons" else none
    styleLineHeight :=
      if o.icon = some defaultIcon ∧ o.placement = some .left then some "inherit"
      else none
    stylePosition := if o.placement = some .left then some "absolute" else none
    styleMarginLeft := if o.placement = some .left then some "-1.25em" else some ".1875em"
    stylePaddingRight := if o.placement = some .left then some ".25em" else some ".1875em"
    stylePaddingLeft := if o.placement = some .left then some ".25em" else some ".1875em" }

/-- Lines 258-269: left placement inserts before the first child (for an
empty child list `insertBefore(a, null)` appends, which coincides with
prepending); any other placement appends as the last child. -/
def insertAnchor (o : Opts) (el : Elem) (a : AnchorData) : Elem :=
  if o.placement = some .left then { el with children := .anchorNode a :: el.children }
  else { el with children := el.children ++ [.anchorNode a] }

/-! ## The per-element body of the scan loop (lines 174-270) -/

inductive ProcResult where
  | drop
  | keep (el : Elem) (idList : List String) (opts : Opts) (elementID : String)
deriving DecidableEq

/-- One iteration of the `for` loop of `Anchor.add` (lines 174-270) on
element `el`: skip it if already anchored; otherwise determine the
identifier (existing `id` attribute first, then `data-anchor-id`, then the
generated-slug path with collision resolution, registry push and `id`
assignment), build the anchor and insert it.  Returns the updated element,
registry and options along with the resolved `elementID`. -/
def processOne (opts : Opts) (doc : Doc) (idList : List String) (el : Elem) :
    Except Unit ProcResult :=
  match hasAnchorJSLink el with
  | .error e => .error e
  | .ok true => .ok .drop
  | .ok false =>
    let r : String × Elem × List String × Opts :=
      match el.id with
      | some s => (s, el, idList, opts)
      | none =>
        match el.dataAnchorId with
        | some s => (s, el, idList, opts)
        | none =>
          let p := urlify opts el.textContent
          let newTidyText := resolveCollision idList p.1
          (newTidyText, { el with id := some newTidyText },
            idList ++ [newTidyText], p.2)
    let a := buildAnchor r.2.2.2 doc r.1
    .ok (.keep (insertAnchor r.2.2.2 r.2.1 a) r.2.2.1 r.2.2.2 r.1)

def setHeading (doc : Doc) (i : Nat) (el : Elem) : Doc :=
  { doc with headings := doc.headings.set i el }

/-- The scan loop over the resolved batch.  `ixs` are the positions (in
`doc.headings`) of the elements still to process, `pos` the loop index `i`,
`drops` the accumulated `indexesToDrop`.  A thrown `TypeError` aborts the
whole call, as in JS. -/
def procLoop : Doc → Opts → List String → List Nat → Nat → List Nat →
    Except Unit (Doc × Opts × List Nat)
  | doc, opts, _, [], _, drops => .ok (doc, opts, drops)
  | doc, opts, idList, i :: rest, pos, drops =>
    match processOne opts doc idList (doc.headings.getD i default) with
    | .error e => .error e
    | .ok .drop => procLoop doc opts idList rest (pos + 1) (drops ++ [pos])
    | .ok (.keep el' idList' opts' _) =>
      procLoop (setHeading doc i el') opts' idList' rest (pos + 1) drops

/-- `elements.splice(indexesToDrop[i] - i, 1)` for each recorded index
(lines 272-274). -/
def spliceAt (l : List Nat) (i : Nat) : List Nat := l.take i ++ l.drop (i + 1)

def dropIndexes (els : List Nat) (drops : List Nat) : List Nat :=
  (drops.foldl (fun acc d => (spliceAt acc.1 (d - acc.2), acc.2 + 1)) (els, 0)).1

/-! ## Selector resolution (source: `_getElements`, lines 382-395)

A selector string resolves against the live document; since `add` never
changes tag names or the number of matched elements, tag-based matching
models `querySelectorAll` faithfully for the selectors the library targets.
A node list is used directly; it is modelled by the positions of the nodes.
(The third `_getElements` branch throws a `TypeError` for a value that is
neither; the Lean input type makes that branch unrepresentable.)  Elements
are identified by their index in `doc.headings`. -/

inductive Selector where
  | tags (ts : List String)
  | nodes (ixs : List Nat)
deriving DecidableEq

def resolve (doc : Doc) : Selector → List Nat
  | .tags ts => (List.range doc.headings.length).filter
      (fun i => ts.contains (doc.headings.getD i default).tag)
  | .nodes ixs => ixs

/-- The default selector `'h2, h3, h4, h5, h6'` (line 157). -/
def defaultSelector : Selector := .tags ["h2", "h3", "h4", "h5", "h6"]

/-- Source: `_addBaselineStyles`, lines 324-370.  Only the idempotence
marker (the presence check on line 326) is state the scan logic observes;
the CSS text itself is opaque to the claims. -/
def _addBaselineStyles (doc : Doc) : Doc :=
  if doc.styleInjected then doc else { doc with styleInjected := true }

/-! ## The Anchor manager (source: `class Anchor`, lines 23-317) -/

structure Anchor where
  opts : Opts
  els : List Nat
deriving DecidableEq

/-- The constructor (lines 27-33): the *parameter default* supplies
`{ icon: defaultIcon, visible: 'always' }` only when no argument at all is
passed; the remaining defaults are then filled in. -/
def ctorDefaultOpts : Opts := { icon := some defaultIcon, visible := some .always }

def Anchor.new (opts : Option Opts) : Anchor :=
  let o := opts.getD ctorDefaultOpts
  { opts := _applyRemainingDefaultOptions o, els := [] }

/-- Source: `Anchor.add`, lines 138-279. -/
def Anchor.add (a : Anchor) (doc : Doc) (sel : Option Selector) :
    Except Unit (Anchor × Doc) :=
  let opts := _applyRemainingDefaultOptions a.opts
  let sel := sel.getD defaultSelector
  let ixs := resolve doc sel
  if ixs.length = 0 then .ok ({ opts := opts, els := a.els }, doc)
  else
    let doc := _addBaselineStyles doc
    let idList := doc.otherIds ++ doc.headings.filterMap Elem.id
    match procLoop doc opts idList ixs 0 [] with
    | .error e => .error e
    | .ok (doc, opts, drops) =>
      .ok ({ opts := opts, els := a.els ++ dropIndexes ixs drops }, doc)

/-- Source: the convenience function `anchor`, lines 16-21: construct with
the given options (an absent argument defaults to `{}`) and immediately
scan with the default selector. -/
def anchor (opts : Option Opts) (doc : Doc) : Except Unit (Anchor × Doc) :=
  let a := Anchor.new (some (opts.getD emptyOpts))
  a.add doc none


deriving instance DecidableEq for Except

instance : Inhabited Doc := ⟨⟨[], [], false, "", false, false⟩⟩

instance : Inhabited Anchor := ⟨⟨emptyOpts, []⟩⟩

/-! ## Specification-side definitions and concrete instances used by the
claims -/

/-- The effective truncation bound of one `urlify` call, as a function of the
`truncate` option it was invoked with: a falsy value (absent or `0`) falls
back to `64`; any other value is used through the `substring` clamp
(negative values truncate to nothing, positive fractional values floor). -/
def effTruncLen : Option ℚ → Nat
  | none => 64
  | some q => if q = 0 then 64 else jsSubstringEnd q

/-- A manager constructed with an explicit all-default options object. -/
def freshAnchor : Anchor := ⟨emptyOpts, []⟩

/-- One `<h2>intro</h2>` heading, no `id`, no `data-anchor-id`. -/
def introHeading : Elem := ⟨"h2", none, none, [.text "intro"]⟩

/-- Document whose existing id set is exactly `{"intro", "intro-0"}`. -/
def docIntroPair : Doc :=
  { headings := [introHeading], otherIds := ["intro", "intro-0"]
    hasBaseTag := false, locationPathSearch := ""
    styleInjected := false, isTouch := false }

/-- Document whose existing id set is exactly `{"intro"}`. -/
def docIntroSingle : Doc :=
  { headings := [introHeading], otherIds := ["intro"]
    hasBaseTag := false, locationPathSearch := ""
    styleInjected := false, isTouch := false }

/-- Document with a single childless `<h2></h2>` heading. -/
def docChildless : Doc :=
  { headings := [⟨"h2", none, none, []⟩], otherIds := []
    hasBaseTag := false, locationPathSearch := ""
    styleInjected := false, isTouch := false }

/-- Document with no headings at all. -/
def docNoHeadings : Doc :=
  { headings := [], otherIds := [], hasBaseTag := false
    locationPathSearch := "", styleInjected := false, isTouch := false }

/-- Document with one ordinary `<h2>hi</h2>` heading. -/
def docOneHeading : Doc :=
  { headings := [⟨"h2", none, none, [.text "hi"]⟩], otherIds := []
    hasBaseTag := false, locationPathSearch := ""
    styleInjected := false, isTouch := false }

/-- The state after one scan of `docOneHeading` (computed, not spelled out —
used to witness idempotence of a second scan). -/
def afterFirstScan : Anchor × Doc :=
  (Anchor.add freshAnchor docOneHeading none).toOption.getD default

/-- A heading carrying a pre-existing `id="foo"`. -/
def headingWithId : Elem := ⟨"h2", some "foo", none, [.text "Title"]⟩

/-- A heading carrying only a `data-anchor-id="bar"` override. -/
def headingWithDataId : Elem := ⟨"h2", none, some "bar", [.text "Title"]⟩

/-! # Theorems -/

/-! ## General-purpose list lemmas -/

theorem length_dropWhile_le (p : Char → Bool) (l : List Char) :
    (l.dropWhile p).length ≤ l.length := by
  induction l with
  | nil => simp
  | cons a as ih =>
    simp only [List.dropWhile]
    split
    · exact Nat.le_succ_of_le ih
    · simp

theorem length_dropHyphensEnds_le (l : List Char) :
    (dropHyphensEnds l).length ≤ l.length := by
  unfold dropHyphensEnds
  calc ((l.dropWhile (· == '-')).reverse.dropWhile (· == '-')).reverse.length
      = ((l.dropWhile (· == '-')).reverse.dropWhile (· == '-')).length := by
        rw [List.length_reverse]
    _ ≤ (l.dropWhile (· == '-')).reverse.length := length_dropWhile_le _ _
    _ = (l.dropWhile (· == '-')).length := by rw [List.length_reverse]
    _ ≤ l.length := length_dropWhile_le _ _

theorem length_stripMLGo_le (l : List Char) :
    ∀ acc : List Char, (stripMLGo acc l).length ≤ acc.length + l.length := by
  induction l with
  | nil =>
    intro acc
    simpa using (length_dropHyphensEnds_le acc.reverse).trans
      (by rw [List.length_reverse])
  | cons c rest ih =>
    intro acc
    simp only [stripMLGo]
    split
    · have h1 : (dropHyphensEnds acc.reverse).length ≤ acc.length :=
        (length_dropHyphensEnds_le acc.reverse).trans (by rw [List.length_reverse])
      have h2 := ih []
      simp only [List.length_nil, Nat.zero_add] at h2
      simp only [List.length_append, List.length_cons]
      omega
    · have := ih (c :: acc)
      simp only [List.length_cons] at this ⊢
      omega

theorem length_stripEdgeHyphensML_le (l : List Char) :
    (stripEdgeHyphensML l).length ≤ l.length := by
  simpa using length_stripMLGo_le l []

/-! ## Claim C5 (code bug: the already-anchored predicate throws on a
childless element) -/

/-- C5: the spec says the already-anchored predicate "does not throw" and
"fails (or returns false) gracefully if the element has no children", but
`hasAnchorJSLink` reads `el.firstChild.className` before the null guard, so
on an element with no child nodes it throws a `TypeError`; evaluating the
embedded code at that failing input yields the thrown-error result. -/
theorem hasAnchorJSLink_childless_throws :
    hasAnchorJSLink ⟨"h2", none, none, []⟩ = .error () := rfl

/-! ## Claim C6 (code bug: scanning a heading with no text content throws) -/

/-- C6: the spec says missing text content on a heading is not an error and
produces the empty-string slug, but a heading with no text has no child
nodes, and the scan reaches `hasAnchorJSLink` — which dereferences
`firstChild.className` — before any slug generation; the whole `add` call
therefore throws.  Evaluating the embedded scan on a document whose only
heading is a childless `<h2></h2>` yields the thrown-error result. -/
theorem add_childless_heading_throws :
    Anchor.add freshAnchor docChildless none = .error () := by decide

/-! ## Claim C2 (collision resolution on `{"intro", "intro-0"}`) -/

/-- C2: scanning a heading whose generated slug is `"intro"` in a document
whose existing id set is exactly `{"intro", "intro-0"}` assigns the heading
the id `"intro-1"`. -/
theorem add_intro_collision_assigns_intro_one :
    (Anchor.add freshAnchor docIntroPair none).map
      (fun p => p.2.headings.map Elem.id) = .ok [some "intro-1"] := by decide

/-! ## Claim C1, counterexample -/

/-- C1 counterexample: the claim says the collision suffix `-N` starts at
`N = 0`.  In a document whose existing id set is exactly `{"intro"}`, the
claim therefore predicts the id `"intro-0"` for a heading slugging to
`"intro"` (the very first suffixed candidate `"intro-0"` is absent from the
registry); the code instead assigns `"intro-1"`, because `count` is
incremented before the first suffixed candidate is built. -/
theorem add_suffix_zero_cex :
    (Anchor.add freshAnchor docIntroSingle none).map
      (fun p => p.2.headings.map Elem.id) = .ok [some "intro-1"] ∧
    (some "intro-1" : Option String) ≠ some "intro-0" := by
  exact ⟨by decide, by decide⟩

/-! ## Claim C8 (zero matched elements: the scan is a no-op on the document) -/

/-- C8: when the (defaulted) selector resolves to zero elements, `add`
returns immediately: the document comes back unchanged — no id is assigned,
no anchor node is inserted and no style block is injected — and the tracked
element list is untouched (only the options object has its remaining
defaults re-applied, which is manager state, not document state). -/
theorem add_zero_elements_noop (a : Anchor) (doc : Doc) (sel : Option Selector)
    (h : resolve doc (sel.getD defaultSelector) = []) :
    Anchor.add a doc sel =
      .ok ({ opts := _applyRemainingDefaultOptions a.opts, els := a.els }, doc) := by
  unfold Anchor.add
  simp [h]

theorem add_zero_elements_noop_witness :
    Anchor.add freshAnchor docNoHeadings none =
      .ok ({ opts := _applyRemainingDefaultOptions freshAnchor.opts
             els := freshAnchor.els }, docNoHeadings) :=
  add_zero_elements_noop freshAnchor docNoHeadings none (by decide)

/-! ## Claim C10 (`urlify` with falsy truncate mutates the options object) -/

/-- C10: calling `urlify` while `opts.truncate` is unset or `0` re-applies
all remaining defaults to the manager's options object as a side effect —
the returned options state is exactly `_applyRemainingDefaultOptions` of the
input, with every field (not only `truncate`) filled in. -/
theorem urlify_falsy_truncate_mutates_opts (o : Opts) (t : String)
    (h : o.truncate = none ∨ o.truncate = some 0) :
    (urlify o t).2 = _applyRemainingDefaultOptions o ∧
    (urlify o t).2.icon.isSome ∧ (urlify o t).2.visible.isSome ∧
    (urlify o t).2.placement.isSome ∧ (urlify o t).2.ariaLabel.isSome ∧
    (urlify o t).2.«class».isSome ∧ (urlify o t).2.base.isSome ∧
    (urlify o t).2.truncate = some 64 ∧ (urlify o t).2.titleText.isSome := by
  have hj : jsTruthyNum o.truncate = false := by
    rcases h with h | h <;> simp [jsTruthyNum, h]
  have h2 : (urlify o t).2 = _applyRemainingDefaultOptions o := by
    simp [urlify, hj]
  refine ⟨h2, ?_, ?_, ?_, ?_, ?_, ?_, ?_, ?_⟩ <;>
    rw [h2] <;>
    simp [_applyRemainingDefaultOptions] <;>
    rcases h with h | h <;> simp [h]

theorem urlify_falsy_truncate_mutates_opts_witness :
    (urlify emptyOpts "x").2 = _applyRemainingDefaultOptions emptyOpts ∧
    (urlify emptyOpts "x").2.icon.isSome ∧ (urlify emptyOpts "x").2.visible.isSome ∧
    (urlify emptyOpts "x").2.placement.isSome ∧ (urlify emptyOpts "x").2.ariaLabel.isSome ∧
    (urlify emptyOpts "x").2.«class».isSome ∧ (urlify emptyOpts "x").2.base.isSome ∧
    (urlify emptyOpts "x").2.truncate = some 64 ∧ (urlify emptyOpts "x").2.titleText.isSome :=
  urlify_falsy_truncate_mutates_opts emptyOpts "x" (Or.inl rfl)

/-! ## Claim C4 (truncation handling), counterexample and amended claim -/

/-- C4 counterexample: the claim says a non-positive `truncate` value falls
back to the default of 64.  With `truncate = -1` the claim therefore
predicts the slug of `"hello"` to be `"hello"` (64-character truncation);
the code instead produces the empty string, because `-1` is truthy (so no
fallback happens) and `substring(0, -1)` clamps to zero characters. -/
theorem urlify_negative_truncate_cex :
    (urlify { truncate := some (-1) } "hello").1 = "" ∧
    (urlify { truncate := some 64 } "hello").1 = "hello" ∧
    ("" : String) ≠ "hello" := by
  refine ⟨by decide, by decide, by decide⟩

/-- C4 amended: slug generation truncates to at most `effTruncLen` many
characters, where a missing or zero `truncate` falls back to the default of
64, a fractional value is floored (truncated toward zero by the `substring`
bound), and a *negative* value is NOT replaced by 64 — it is truthy, is kept,
and clamps the truncation to zero characters, so the slug is empty. -/
theorem urlify_truncation_bound :
    (∀ (o : Opts) (t : String), (urlify o t).1.length ≤ effTruncLen o.truncate) ∧
    (∀ (o : Opts) (t : String), o.truncate = none ∨ o.truncate = some 0 →
      (urlify o t).1 = (urlify { o with truncate := some 64 } t).1) ∧
    (∀ (o : Opts) (t : String) (q : ℚ), o.truncate = some q → q < 0 →
      (urlify o t).1 = "") := by
  have hlen : ∀ (n : Nat) (x : List Char),
      (toLowerList (stripEdgeHyphensML (List.take n x))).length ≤ n := by
    intro n x
    calc (toLowerList (stripEdgeHyphensML (x.take n))).length
        = (stripEdgeHyphensML (x.take n)).length := by simp [toLowerList]
      _ ≤ (x.take n).length := length_stripEdgeHyphensML_le _
      _ ≤ n := by simp [List.length_take]
  have hmk : ∀ l : List Char, (String.mk l).length = l.length := fun _ => rfl
  have h64 : jsSubstringEnd 64 = 64 := by decide
  refine ⟨?_, ?_, ?_⟩
  · intro o t
    rcases ho : o.truncate with _ | q
    · simp only [urlify, jsTruthyNum, ho, _applyRemainingDefaultOptions]
      rw [hmk]
      simpa [effTruncLen, ho, h64] using hlen 64 _
    · by_cases hq : q = 0
      · subst hq
        simp only [urlify, jsTruthyNum, ho, _applyRemainingDefaultOptions]
        rw [hmk]
        simpa [effTruncLen, ho, h64] using hlen 64 _
      · have : jsTruthyNum o.truncate = true := by simp [jsTruthyNum, ho, hq]
        simp only [urlify, this, if_pos]
        rw [hmk]
        simpa [effTruncLen, ho, hq] using hlen (jsSubstringEnd q) _
  · intro o t h
    have hj : jsTruthyNum o.truncate = false := by
      rcases h with h | h <;> simp [jsTruthyNum, h]
    have ht : (_applyRemainingDefaultOptions o).truncate = some 64 := by
      rcases h with h | h <;> simp [_applyRemainingDefaultOptions, h]
    have ht2 : ({ o with truncate := some 64 } : Opts).truncate = some (64 : ℚ) := rfl
    have hj2 : jsTruthyNum (some (64 : ℚ)) = true := by decide
    simp only [urlify, hj, Bool.false_eq_true, if_false, ht, ht2, hj2, if_true,
      Option.getD_some]
  · intro o t q hq hneg
    have hj : jsTruthyNum (some q) = true := by
      simp only [jsTruthyNum, bne_iff_ne, ne_eq]
      simp [ne_of_lt hneg]
    have h0 : jsSubstringEnd q = 0 := by
      simp [jsSubstringEnd, le_of_lt hneg]
    simp only [urlify, hq, hj, if_true, Option.getD_some, h0, List.take_zero]
    rfl

theorem urlify_truncation_bound_witness :
    ((urlify emptyOpts "abc").1.length ≤ effTruncLen emptyOpts.truncate) ∧
    ((urlify emptyOpts "abc").1 = (urlify { emptyOpts with truncate := some 64 } "abc").1) ∧
    ((urlify { truncate := some (-2) } "abc").1 = "") :=
  ⟨urlify_truncation_bound.1 emptyOpts "abc",
   urlify_truncation_bound.2.1 emptyOpts "abc" (Or.inl rfl),
   urlify_truncation_bound.2.2 { truncate := some (-2) } "abc" (-2) rfl (by norm_num)⟩

/-! ## Claim C7 (pre-existing id / data-attribute reuse) -/

/-- C7: a scanned element that already carries an `id` attribute (or, with
no `id`, a `data-anchor-id` attribute) has that value reused verbatim: no
slug generation is attempted, the registry is not consulted or extended
(`idList` comes back unchanged, whatever it contains — in particular the
reused value may already be in it), the element's `id` attribute is not
renamed, and the anchor's href targets exactly `#` plus the reused value. -/
theorem processOne_existing_id_verbatim (opts : Opts) (doc : Doc)
    (idList : List String) (el : Elem) (s : String)
    (hanch : hasAnchorJSLink el = .ok false)
    (h : el.id = some s ∨ (el.id = none ∧ el.dataAnchorId = some s)) :
    processOne opts doc idList el =
      .ok (.keep (insertAnchor opts el (buildAnchor opts doc s)) idList opts s) ∧
    (insertAnchor opts el (buildAnchor opts doc s)).id = el.id ∧
    (buildAnchor opts doc s).href = hrefBaseOf opts doc ++ "#" ++ s := by
  refine ⟨?_, ?_, rfl⟩
  · unfold processOne
    rw [hanch]
    rcases h with h | ⟨h1, h2⟩
    · simp [h]
    · simp [h1, h2]
  · unfold insertAnchor
    split <;> rfl

theorem processOne_existing_id_verbatim_witness :
    (processOne emptyOpts docNoHeadings ["foo"] headingWithId =
      .ok (.keep (insertAnchor emptyOpts headingWithId
            (buildAnchor emptyOpts docNoHeadings "foo")) ["foo"] emptyOpts "foo") ∧
     (insertAnchor emptyOpts headingWithId
        (buildAnchor emptyOpts docNoHeadings "foo")).id = headingWithId.id ∧
     (buildAnchor emptyOpts docNoHeadings "foo").href =
        hrefBaseOf emptyOpts docNoHeadings ++ "#" ++ "foo") ∧
    (processOne emptyOpts docNoHeadings [] headingWithDataId =
      .ok (.keep (insertAnchor emptyOpts headingWithDataId
            (buildAnchor emptyOpts docNoHeadings "bar")) [] emptyOpts "bar") ∧
     (insertAnchor emptyOpts headingWithDataId
        (buildAnchor emptyOpts docNoHeadings "bar")).id = headingWithDataId.id ∧
     (buildAnchor emptyOpts docNoHeadings "bar").href =
        hrefBaseOf emptyOpts docNoHeadings ++ "#" ++ "bar") :=
  ⟨processOne_existing_id_verbatim emptyOpts docNoHeadings ["foo"] headingWithId "foo"
      (by decide) (Or.inl rfl),
   processOne_existing_id_verbatim emptyOpts docNoHeadings [] headingWithDataId "bar"
      (by decide) (Or.inr ⟨rfl, rfl⟩)⟩

/-! ## Claim C9 (default visibility depends on how the manager is made) -/

theorem applyDefaults_visible_some (o : Opts) (v : Visible) (h : o.visible = some v) :
    (_applyRemainingDefaultOptions o).visible = some v := by
  simp [_applyRemainingDefaultOptions, h]

theorem urlify_visible_some (o : Opts) (t : String) (v : Visible)
    (h : o.visible = some v) : (urlify o t).2.visible = some v := by
  by_cases hj : jsTruthyNum o.truncate = true
  · simp [urlify, hj, h]
  · simp [urlify, hj, applyDefaults_visible_some o v h]

theorem processOne_visible_some (opts : Opts) (doc : Doc) (idList : List String)
    (el el' : Elem) (il' : List String) (o' : Opts) (eid : String) (v : Visible)
    (h : processOne opts doc idList el = .ok (.keep el' il' o' eid))
    (hv : opts.visible = some v) : o'.visible = some v := by
  unfold processOne at h
  rcases hh : hasAnchorJSLink el with e | b
  · rw [hh] at h; cases h
  · rcases b with _ | _
    · rw [hh] at h
      rcases hid : el.id with _ | s
      · rcases hdata : el.dataAnchorId with _ | s
        · simp only [hid, hdata, Except.ok.injEq, ProcResult.keep.injEq] at h
          obtain ⟨-, -, h3, -⟩ := h
          rw [← h3]
          exact urlify_visible_some opts el.textContent v hv
        · simp only [hid, hdata, Except.ok.injEq, ProcResult.keep.injEq] at h
          obtain ⟨-, -, h3, -⟩ := h
          rw [← h3]; exact hv
      · simp only [hid, Except.ok.injEq, ProcResult.keep.injEq] at h
        obtain ⟨-, -, h3, -⟩ := h
        rw [← h3]; exact hv
    · rw [hh] at h; cases h

theorem procLoop_visible_some :
    ∀ (ixs : List Nat) (doc : Doc) (opts : Opts) (idList : List String)
      (pos : Nat) (drops : List Nat) (d' : Doc) (o' : Opts) (dr : List Nat)
      (v : Visible),
      procLoop doc opts idList ixs pos drops = .ok (d', o', dr) →
      opts.visible = some v → o'.visible = some v := by
  intro ixs
  induction ixs with
  | nil =>
    intro doc opts idList pos drops d' o' dr v h hv
    simp only [procLoop, Except.ok.injEq, Prod.mk.injEq] at h
    obtain ⟨-, h2, -⟩ := h
    rw [← h2]; exact hv
  | cons i rest ih =>
    intro doc opts idList pos drops d' o' dr v h hv
    unfold procLoop at h
    rcases hp : processOne opts doc idList (doc.headings.getD i default) with e | r
    · rw [hp] at h; cases h
    · rcases r with _ | ⟨el', il', o2, eid⟩
      · rw [hp] at h
        exact ih _ _ _ _ _ _ _ _ v h hv
      · rw [hp] at h
        exact ih _ _ _ _ _ _ _ _ v h
          (processOne_visible_some opts doc idList _ el' il' o2 eid v hp hv)

/-- C9: default visibility depends on how the manager is created.
Constructing with no argument at all takes the constructor's parameter
default (`visible: 'always'`); the convenience function `anchor` always
passes an options object (defaulting to `{}`), so construction through it —
or any construction with an explicit options object omitting `visible` —
falls to the defaulting routine's `'hover'`. -/
theorem visible_default_depends_on_construction :
    (Anchor.new none).opts.visible = some Visible.always ∧
    (∀ o : Opts, o.visible = none →
      (Anchor.new (some o)).opts.visible = some Visible.hover) ∧
    (∀ (doc : Doc) (a' : Anchor) (doc' : Doc), anchor none doc = .ok (a', doc') →
      a'.opts.visible = some Visible.hover) := by
  refine ⟨rfl, ?_, ?_⟩
  · intro o h
    simp [Anchor.new, _applyRemainingDefaultOptions, h]
  · intro doc a' doc' h
    unfold anchor at h
    have hv0 : (Anchor.new (some (Option.getD none emptyOpts))).opts.visible
        = some Visible.hover := rfl
    set a := Anchor.new (some (Option.getD none emptyOpts)) with ha
    have hv1 : (_applyRemainingDefaultOptions a.opts).visible = some Visible.hover :=
      applyDefaults_visible_some _ _ hv0
    unfold Anchor.add at h
    by_cases hix : (resolve doc ((none : Option Selector).getD defaultSelector)).length = 0
    · simp only [hix, if_true, Except.ok.injEq, Prod.mk.injEq] at h
      obtain ⟨h1, -⟩ := h
      rw [← h1]
      exact hv1
    · simp only [hix, if_false] at h
      rcases hp : procLoop (_addBaselineStyles doc) (_applyRemainingDefaultOptions a.opts)
          ((_addBaselineStyles doc).otherIds ++
            (_addBaselineStyles doc).headings.filterMap Elem.id)
          (resolve doc ((none : Option Selector).getD defaultSelector)) 0 []
        with e | ⟨docF, optsF, drops⟩
      · rw [hp] at h; cases h
      · rw [hp] at h
        simp only [Except.ok.injEq, Prod.mk.injEq] at h
        obtain ⟨h1, -⟩ := h
        rw [← h1]
        exact procLoop_visible_some _ _ _ _ _ _ _ _ _ _ hp hv1

theorem visible_default_depends_on_construction_witness :
    ((Anchor.new none).opts.visible = some Visible.always) ∧
    ((Anchor.new (some emptyOpts)).opts.visible = some Visible.hover) ∧
    (((anchor none docNoHeadings).toOption.getD default).1.opts.visible
      = some Visible.hover) :=
  ⟨visible_default_depends_on_construction.1,
   visible_default_depends_on_construction.2.1 emptyOpts rfl,
   visible_default_depends_on_construction.2.2 docNoHeadings
     ((anchor none docNoHeadings).toOption.getD default).1
     ((anchor none docNoHeadings).toOption.getD default).2 rfl⟩

/-! ## Claim C1: characterization of the collision loop -/

theorem charToDigit_digitChar (d : Nat) (h : d < 10) :
    charToDigit (digitChar d) = d := by
  interval_cases d <;> rfl

theorem natDigitsRevGo_lt_ten :
    ∀ (fuel n : Nat), ∀ d ∈ natDigitsRevGo fuel n, d < 10 := by
  intro fuel
  induction fuel with
  | zero => intro n d hd; simp [natDigitsRevGo] at hd
  | succ fuel ih =>
    intro n d hd
    cases n with
    | zero => simp [natDigitsRevGo] at hd
    | succ m =>
      simp only [natDigitsRevGo, List.mem_cons] at hd
      rcases hd with hd | hd
      · subst hd; exact Nat.mod_lt _ (by norm_num)
      · exact ih _ _ hd

theorem decValRev_natDigitsRevGo :
    ∀ (fuel n : Nat), n ≤ fuel → decValRev (natDigitsRevGo fuel n) = n := by
  intro fuel
  induction fuel with
  | zero => intro n hn; interval_cases n; rfl
  | succ fuel ih =>
    intro n hn
    cases n with
    | zero => rfl
    | succ m =>
      have hdiv : (m + 1) / 10 < m + 1 := Nat.div_lt_self (Nat.succ_pos m) (by norm_num)
      have : decValRev (natDigitsRevGo fuel ((m + 1) / 10)) = (m + 1) / 10 :=
        ih _ (by omega)
      simp only [natDigitsRevGo, decValRev, this]
      exact Nat.mod_add_div (m + 1) 10

theorem parseDecimal_jsNatRepr (n : Nat) : parseDecimal (jsNatRepr n) = n := by
  by_cases h0 : n = 0
  · subst h0; rfl
  · unfold jsNatRepr
    rw [if_neg h0]
    unfold parseDecimal
    show decValRev (((((natDigitsRevGo n n).map digitChar).reverse).map
      charToDigit).reverse) = n
    rw [List.map_reverse, List.reverse_reverse, List.map_map]
    have hmap : (natDigitsRevGo n n).map (charToDigit ∘ digitChar)
        = (natDigitsRevGo n n).map id := by
      apply List.map_congr_left
      intro d hd
      exact charToDigit_digitChar d (natDigitsRevGo_lt_ten n n d hd)
    rw [hmap, List.map_id]
    exact decValRev_natDigitsRevGo n n (Nat.le_refl n)

theorem jsNatRepr_inj (m n : Nat) (h : jsNatRepr m = jsNatRepr n) : m = n := by
  rw [← parseDecimal_jsNatRepr m, ← parseDecimal_jsNatRepr n, h]

theorem candidate_inj (tidy : String) (j k : Nat)
    (h : tidy ++ "-" ++ jsNatRepr j = tidy ++ "-" ++ jsNatRepr k) : j = k := by
  apply jsNatRepr_inj
  have hd : (tidy ++ "-" ++ jsNatRepr j).data = (tidy ++ "-" ++ jsNatRepr k).data :=
    congrArg String.data h
  have hd' : tidy.data ++ "-".data ++ (jsNatRepr j).data
      = tidy.data ++ "-".data ++ (jsNatRepr k).data := hd
  rw [List.append_assoc, List.append_assoc] at hd'
  have h2 := List.append_cancel_left hd'
  have h3 := List.append_cancel_left h2
  cases hj : jsNatRepr j with
  | mk dj =>
    cases hk : jsNatRepr k with
    | mk dk =>
      rw [hj, hk] at h3
      simpa using congrArg String.mk h3

theorem exists_free_candidate (idList : List String) (tidy : String) (c0 : Nat) :
    ∃ k, k < idList.length + 1 ∧ (tidy ++ "-" ++ jsNatRepr (c0 + k)) ∉ idList := by
  by_contra hc
  push_neg at hc
  have hinj : Function.Injective
      (fun k : Fin (idList.length + 1) => tidy ++ "-" ++ jsNatRepr (c0 + k.val)) := by
    intro k1 k2 h
    have := candidate_inj tidy (c0 + k1.val) (c0 + k2.val) h
    exact Fin.ext (by omega)
  have hsub : Finset.univ.image
      (fun k : Fin (idList.length + 1) => tidy ++ "-" ++ jsNatRepr (c0 + k.val))
      ⊆ idList.toFinset := by
    intro x hx
    simp only [Finset.mem_image, Finset.mem_univ, true_and] at hx
    obtain ⟨k, hk⟩ := hx
    rw [List.mem_toFinset, ← hk]
    exact hc k.val k.isLt
  have h1 : (Finset.univ.image
      (fun k : Fin (idList.length + 1) => tidy ++ "-" ++ jsNatRepr (c0 + k.val))).card
      = idList.length + 1 := by
    rw [Finset.card_image_of_injective _ hinj, Finset.card_univ, Fintype.card_fin]
  have h2 := Finset.card_le_card hsub
  have h3 := List.toFinset_card_le idList
  omega

theorem collisionFrom_found (idList : List String) (tidy : String) :
    ∀ (fuel c0 : Nat),
      (∃ k, k < fuel ∧ (tidy ++ "-" ++ jsNatRepr (c0 + k)) ∉ idList) →
      ∃ N, c0 ≤ N ∧
        collisionFrom idList tidy fuel c0 = tidy ++ "-" ++ jsNatRepr N ∧
        (tidy ++ "-" ++ jsNatRepr N) ∉ idList ∧
        ∀ j, c0 ≤ j → j < N → (tidy ++ "-" ++ jsNatRepr j) ∈ idList := by
  intro fuel
  induction fuel with
  | zero =>
    rintro c0 ⟨k, hk, -⟩
    omega
  | succ fuel ih =>
    rintro c0 ⟨k, hk, hfree⟩
    by_cases hc : idList.contains (tidy ++ "-" ++ jsNatRepr c0)
    · have hmem : (tidy ++ "-" ++ jsNatRepr c0) ∈ idList := by
        rw [← List.elem_iff]; exact hc
      have hk0 : k ≠ 0 := by
        intro h0
        subst h0
        simp only [Nat.add_zero] at hfree
        exact hfree hmem
      obtain ⟨k', rfl⟩ : ∃ k', k = k' + 1 := ⟨k - 1, by omega⟩
      obtain ⟨N, hN1, hN2, hN3, hN4⟩ := ih (c0 + 1)
        ⟨k', by omega, by rw [show c0 + 1 + k' = c0 + (k' + 1) by omega]; exact hfree⟩
      refine ⟨N, by omega, ?_, hN3, ?_⟩
      · unfold collisionFrom
        rw [if_pos hc]
        exact hN2
      · intro j hj1 hj2
        rcases Nat.eq_or_lt_of_le hj1 with h | h
        · rw [← h]; exact hmem
        · exact hN4 j (by omega) hj2
    · refine ⟨c0, Nat.le_refl _, ?_, ?_, ?_⟩
      · unfold collisionFrom
        rw [if_neg hc]
      · intro hmem
        exact hc (by rw [List.elem_iff]; exact hmem)
      · intro j h1 h2
        omega

theorem resolveCollision_spec (idList : List String) (tidy : String) :
    (tidy ∉ idList → resolveCollision idList tidy = tidy) ∧
    (tidy ∈ idList → ∃ N, 1 ≤ N ∧
      resolveCollision idList tidy = tidy ++ "-" ++ jsNatRepr N ∧
      (tidy ++ "-" ++ jsNatRepr N) ∉ idList ∧
      ∀ j, 1 ≤ j → j < N → (tidy ++ "-" ++ jsNatRepr j) ∈ idList) := by
  constructor
  · intro h
    unfold resolveCollision
    rw [if_neg (fun hc => h (by rw [← List.elem_iff]; exact hc))]
  · intro h
    unfold resolveCollision
    rw [if_pos (by rw [List.elem_iff]; exact h)]
    obtain ⟨k, hk, hfree⟩ := exists_free_candidate idList tidy 1
    exact collisionFrom_found idList tidy (idList.length + 1) 1 ⟨k, hk, hfree⟩

/-- C1 amended: on the generated-identifier path of the scan (no `id`, no
`data-anchor-id`), the element is assigned its generated slug if that is
absent from the Identifier Registry; otherwise the slug with a suffix `-N`,
where `N` starts at **1** (not 0: the loop increments `count` before
building the first suffixed candidate) and increments by 1 until the
candidate is absent.  The accepted candidate is pushed onto the registry
immediately and set as the element's `id` attribute. -/
theorem processOne_generated_id_spec (opts : Opts) (doc : Doc)
    (idList : List String) (el : Elem)
    (h1 : hasAnchorJSLink el = .ok false) (h2 : el.id = none)
    (h3 : el.dataAnchorId = none) :
    ∃ eid : String,
      processOne opts doc idList el =
        .ok (.keep
          (insertAnchor (urlify opts el.textContent).2 { el with id := some eid }
            (buildAnchor (urlify opts el.textContent).2 doc eid))
          (idList ++ [eid]) (urlify opts el.textContent).2 eid) ∧
      (((urlify opts el.textContent).1 ∉ idList ∧
          eid = (urlify opts el.textContent).1) ∨
        ((urlify opts el.textContent).1 ∈ idList ∧ ∃ N : Nat, 1 ≤ N ∧
          eid = (urlify opts el.textContent).1 ++ "-" ++ jsNatRepr N ∧
          eid ∉ idList ∧
          ∀ j : Nat, 1 ≤ j → j < N →
            ((urlify opts el.textContent).1 ++ "-" ++ jsNatRepr j) ∈ idList)) := by
  refine ⟨resolveCollision idList (urlify opts el.textContent).1, ?_, ?_⟩
  · unfold processOne
    rw [h1]
    simp only [h2, h3]
  · by_cases hmem : (urlify opts el.textContent).1 ∈ idList
    · right
      refine ⟨hmem, ?_⟩
      obtain ⟨N, hN1, hN2, hN3, hN4⟩ := (resolveCollision_spec idList _).2 hmem
      exact ⟨N, hN1, hN2, by rw [hN2]; exact hN3, hN4⟩
    · left
      exact ⟨hmem, (resolveCollision_spec idList _).1 hmem⟩

theorem processOne_generated_id_spec_witness :
    ∃ eid : String,
      processOne emptyOpts docNoHeadings ["intro"] introHeading =
        .ok (.keep
          (insertAnchor (urlify emptyOpts introHeading.textContent).2
            { introHeading with id := some eid }
            (buildAnchor (urlify emptyOpts introHeading.textContent).2
              docNoHeadings eid))
          (["intro"] ++ [eid]) (urlify emptyOpts introHeading.textContent).2 eid) ∧
      (((urlify emptyOpts introHeading.textContent).1 ∉ ["intro"] ∧
          eid = (urlify emptyOpts introHeading.textContent).1) ∨
        ((urlify emptyOpts introHeading.textContent).1 ∈ ["intro"] ∧ ∃ N : Nat, 1 ≤ N ∧
          eid = (urlify emptyOpts introHeading.textContent).1 ++ "-" ++ jsNatRepr N ∧
          eid ∉ ["intro"] ∧
          ∀ j : Nat, 1 ≤ j → j < N →
            ((urlify emptyOpts introHeading.textContent).1 ++ "-" ++ jsNatRepr j)
              ∈ ["intro"])) :=
  processOne_generated_id_spec emptyOpts docNoHeadings ["intro"] introHeading
    (by decide) rfl rfl

/-! ## Claim C3: idempotence of the scan -/

theorem startsWithSeq_append_self :
    ∀ (p t : List Char), startsWithSeq p (p ++ t) = true := by
  intro p
  induction p with
  | nil => intro t; rfl
  | cons a as ih =>
    intro t
    simp only [List.cons_append, startsWithSeq, beq_self_eq_true, Bool.true_and]
    exact ih t

theorem hasSubSeq_of_startsWith (p l : List Char)
    (h : startsWithSeq p l = true) : hasSubSeq p l = true := by
  cases l with
  | nil => exact h
  | cons c rest =>
    unfold hasSubSeq
    rw [h]
    simp

theorem containsAnchorMarker_anchor (s : String) :
    containsAnchorMarker (some ("anchorjs-link " ++ s)) = true := by
  unfold containsAnchorMarker jsUndefStr
  apply hasSubSeq_of_startsWith
  have hdata : (" " ++ ("anchorjs-link " ++ s) ++ " ").data
      = (" anchorjs-link ").data ++ (s.data ++ [' ']) := by
    show (" ".data ++ ("anchorjs-link ".data ++ s.data)) ++ " ".data
        = " anchorjs-link ".data ++ (s.data ++ [' '])
    rw [List.append_assoc, List.append_assoc]
    rfl
  rw [hdata]
  exact startsWithSeq_append_self _ _

theorem getLast?_cons_isSome {α : Type} (c : α) (l : List α) :
    ∃ x, (c :: l).getLast? = some x := by
  induction l generalizing c with
  | nil => exact ⟨c, rfl⟩
  | cons b bs ih =>
    rw [List.getLast?_cons_cons]
    exact ih b

theorem head?_concat_isSome {α : Type} (l : List α) (c : α) :
    ∃ x, (l ++ [c]).head? = some x := by
  cases l with
  | nil => exact ⟨c, rfl⟩
  | cons a as => exact ⟨a, rfl⟩

theorem anchored_insertAnchor (o : Opts) (el : Elem) (doc : Doc) (eid : String) :
    hasAnchorJSLink (insertAnchor o el (buildAnchor o doc eid)) = .ok true := by
  have hcls : containsAnchorMarker
      (ChildNode.anchorNode (buildAnchor o doc eid)).className = true :=
    containsAnchorMarker_anchor (jsUndefStr o.«class»)
  unfold insertAnchor
  split
  · obtain ⟨x, hx⟩ := getLast?_cons_isSome
      (ChildNode.anchorNode (buildAnchor o doc eid)) el.children
    unfold hasAnchorJSLink
    simp only [List.head?_cons, hx, hcls, Bool.true_or]
  · obtain ⟨x, hx⟩ := head?_concat_isSome el.children
      (ChildNode.anchorNode (buildAnchor o doc eid))
    unfold hasAnchorJSLink
    simp only [hx, List.getLast?_concat, hcls, Bool.or_true]

/-- `getD`-level: setting index `i` leaves other positions unchanged. -/
theorem getD_set_ne {α : Type} (l : List α) (i j : Nat) (x d : α) (h : j ≠ i) :
    (l.set i x).getD j d = l.getD j d := by
  simp [List.getD, List.getElem?_set_ne (fun hh => h hh.symm)]

theorem getD_set_self {α : Type} (l : List α) (i : Nat) (x d : α)
    (h : i < l.length) : (l.set i x).getD i d = x := by
  simp [List.getD, List.getElem?_set_self, h]

theorem getD_of_le {α : Type} (l : List α) (i : Nat) (d : α)
    (h : l.length ≤ i) : l.getD i d = d := by
  simp [List.getD, List.getElem?_eq_none h]

theorem insertAnchor_tag (o : Opts) (el : Elem) (a : AnchorData) :
    (insertAnchor o el a).tag = el.tag := by
  unfold insertAnchor
  split <;> rfl

/-- Inversion: a `keep` result presupposes the already-anchored test came
back `false`. -/
theorem processOne_keep_hasfalse (opts : Opts) (doc : Doc) (idList : List String)
    (el el' : Elem) (il' : List String) (o' : Opts) (eid : String)
    (h : processOne opts doc idList el = .ok (.keep el' il' o' eid)) :
    hasAnchorJSLink el = .ok false := by
  unfold processOne at h
  rcases hh : hasAnchorJSLink el with e | b
  · rw [hh] at h; cases h
  · rcases b with _ | _
    · rfl
    · rw [hh] at h; simp at h

/-- Inversion: the kept element is the old one with an anchor inserted. -/
theorem processOne_keep_shape (opts : Opts) (doc : Doc) (idList : List String)
    (el el' : Elem) (il' : List String) (o' : Opts) (eid : String)
    (h : processOne opts doc idList el = .ok (.keep el' il' o' eid)) :
    ∃ elMid : Elem, el' = insertAnchor o' elMid (buildAnchor o' doc eid) ∧
      elMid.tag = el.tag ∧ elMid.children = el.children := by
  have hh := processOne_keep_hasfalse opts doc idList el el' il' o' eid h
  unfold processOne at h
  rw [hh] at h
  rcases hid : el.id with _ | s
  · rcases hda : el.dataAnchorId with _ | s
    · simp only [hid, hda, Except.ok.injEq, ProcResult.keep.injEq] at h
      obtain ⟨h1, -, h3, h4⟩ := h
      refine ⟨{ el with id := some (resolveCollision idList (urlify opts el.textContent).1) },
        ?_, rfl, rfl⟩
      rw [← h1, ← h3, ← h4, hda]
    · simp only [hid, hda, Except.ok.injEq, ProcResult.keep.injEq] at h
      obtain ⟨h1, -, h3, h4⟩ := h
      exact ⟨el, by rw [← h1, ← h3, ← h4], rfl, rfl⟩
  · simp only [hid, Except.ok.injEq, ProcResult.keep.injEq] at h
    obtain ⟨h1, -, h3, h4⟩ := h
    exact ⟨el, by rw [← h1, ← h3, ← h4], rfl, rfl⟩

theorem processOne_keep_anchored (opts : Opts) (doc : Doc) (idList : List String)
    (el el' : Elem) (il' : List String) (o' : Opts) (eid : String)
    (h : processOne opts doc idList el = .ok (.keep el' il' o' eid)) :
    hasAnchorJSLink el' = .ok true := by
  obtain ⟨elMid, hshape, -, -⟩ := processOne_keep_shape opts doc idList el el' il' o' eid h
  rw [hshape]
  exact anchored_insertAnchor o' elMid doc eid

theorem processOne_keep_tag (opts : Opts) (doc : Doc) (idList : List String)
    (el el' : Elem) (il' : List String) (o' : Opts) (eid : String)
    (h : processOne opts doc idList el = .ok (.keep el' il' o' eid)) :
    el'.tag = el.tag := by
  obtain ⟨elMid, hshape, htag, -⟩ := processOne_keep_shape opts doc idList el el' il' o' eid h
  rw [hshape, insertAnchor_tag, htag]

/-- Inversion: a `drop` result presupposes the already-anchored test came
back `true`, and conversely. -/
theorem processOne_drop_inv (opts : Opts) (doc : Doc) (idList : List String)
    (el : Elem) (h : processOne opts doc idList el = .ok .drop) :
    hasAnchorJSLink el = .ok true := by
  unfold processOne at h
  rcases hh : hasAnchorJSLink el with e | b
  · rw [hh] at h; cases h
  · rcases b with _ | _
    · rw [hh] at h; simp at h
    · rfl

theorem processOne_drop_of_anchored (opts : Opts) (doc : Doc) (idList : List String)
    (el : Elem) (h : hasAnchorJSLink el = .ok true) :
    processOne opts doc idList el = .ok .drop := by
  unfold processOne
  rw [h]

/-- Index validity: a `keep` result can only arise at a valid index (an
out-of-range lookup yields the default childless element, whose
already-anchored test throws). -/
theorem processOne_keep_index_lt (opts : Opts) (doc : Doc) (idList : List String)
    (i : Nat) (el' : Elem) (il' : List String) (o' : Opts) (eid : String)
    (h : processOne opts doc idList (doc.headings.getD i default) =
      .ok (.keep el' il' o' eid)) :
    i < doc.headings.length := by
  by_contra hge
  have hdef : doc.headings.getD i default = default := getD_of_le _ _ _ (by omega)
  have hfalse := processOne_keep_hasfalse opts doc idList _ el' il' o' eid h
  rw [hdef] at hfalse
  cases hfalse

/-- The scan loop can only anchor elements, never un-anchor them. -/
theorem procLoop_preserves_anchored :
    ∀ (ixs : List Nat) (doc : Doc) (opts : Opts) (idList : List String)
      (pos : Nat) (drops : List Nat) (d' : Doc) (o' : Opts) (dr : List Nat),
      procLoop doc opts idList ixs pos drops = .ok (d', o', dr) →
      ∀ j, hasAnchorJSLink (doc.headings.getD j default) = .ok true →
        hasAnchorJSLink (d'.headings.getD j default) = .ok true := by
  intro ixs
  induction ixs with
  | nil =>
    intro doc opts idList pos drops d' o' dr h j hj
    simp only [procLoop, Except.ok.injEq, Prod.mk.injEq] at h
    obtain ⟨h1, -, -⟩ := h
    rw [← h1]
    exact hj
  | cons i rest ih =>
    intro doc opts idList pos drops d' o' dr h j hj
    unfold procLoop at h
    rcases hp : processOne opts doc idList (doc.headings.getD i default) with e | r
    · rw [hp] at h; cases h
    · rcases r with _ | ⟨el', il', o2, eid⟩
      · rw [hp] at h
        exact ih _ _ _ _ _ _ _ _ h j hj
      · rw [hp] at h
        refine ih _ _ _ _ _ _ _ _ h j ?_
        by_cases hji : j = i
        · subst hji
          have hlt := processOne_keep_index_lt opts doc idList j el' il' o2 eid hp
          show hasAnchorJSLink ((setHeading doc j el').headings.getD j default) = .ok true
          unfold setHeading
          rw [getD_set_self _ _ _ _ hlt]
          exact processOne_keep_anchored opts doc idList _ el' il' o2 eid hp
        · show hasAnchorJSLink ((setHeading doc i el').headings.getD j default) = .ok true
          unfold setHeading
          rw [getD_set_ne _ _ _ _ _ hji]
          exact hj

/-- After a successful pass, every element of the batch is anchored. -/
theorem procLoop_ok_anchors :
    ∀ (ixs : List Nat) (doc : Doc) (opts : Opts) (idList : List String)
      (pos : Nat) (drops : List Nat) (d' : Doc) (o' : Opts) (dr : List Nat),
      procLoop doc opts idList ixs pos drops = .ok (d', o', dr) →
      ∀ i ∈ ixs, hasAnchorJSLink (d'.headings.getD i default) = .ok true := by
  intro ixs
  induction ixs with
  | nil => intro doc opts idList pos drops d' o' dr h i hi; simp at hi
  | cons i rest ih =>
    intro doc opts idList pos drops d' o' dr h j hj
    unfold procLoop at h
    rcases hp : processOne opts doc idList (doc.headings.getD i default) with e | r
    · rw [hp] at h; cases h
    · rcases r with _ | ⟨el', il', o2, eid⟩
      · rw [hp] at h
        rcases List.mem_cons.mp hj with hj | hj
        · subst hj
          exact procLoop_preserves_anchored rest _ _ _ _ _ _ _ _ h j
            (processOne_drop_inv opts doc idList _ hp)
        · exact ih _ _ _ _ _ _ _ _ h j hj
      · rw [hp] at h
        rcases List.mem_cons.mp hj with hj | hj
        · subst hj
          have hlt := processOne_keep_index_lt opts doc idList j el' il' o2 eid hp
          refine procLoop_preserves_anchored rest _ _ _ _ _ _ _ _ h j ?_
          show hasAnchorJSLink ((setHeading doc j el').headings.getD j default) = .ok true
          unfold setHeading
          rw [getD_set_self _ _ _ _ hlt]
          exact processOne_keep_anchored opts doc idList _ el' il' o2 eid hp
        · exact ih _ _ _ _ _ _ _ _ h j hj

/-- The scan loop does not change the document fields outside `headings`,
nor the number of headings, nor any heading's tag name. -/
theorem procLoop_preserved_fields :
    ∀ (ixs : List Nat) (doc : Doc) (opts : Opts) (idList : List String)
      (pos : Nat) (drops : List Nat) (d' : Doc) (o' : Opts) (dr : List Nat),
      procLoop doc opts idList ixs pos drops = .ok (d', o', dr) →
      d'.otherIds = doc.otherIds ∧ d'.hasBaseTag = doc.hasBaseTag ∧
      d'.locationPathSearch = doc.locationPathSearch ∧
      d'.styleInjected = doc.styleInjected ∧ d'.isTouch = doc.isTouch ∧
      d'.headings.length = doc.headings.length ∧
      ∀ j, (d'.headings.getD j default).tag = (doc.headings.getD j default).tag := by
  intro ixs
  induction ixs with
  | nil =>
    intro doc opts idList pos drops d' o' dr h
    simp only [procLoop, Except.ok.injEq, Prod.mk.injEq] at h
    obtain ⟨h1, -, -⟩ := h
    rw [← h1]
    exact ⟨rfl, rfl, rfl, rfl, rfl, rfl, fun _ => rfl⟩
  | cons i rest ih =>
    intro doc opts idList pos drops d' o' dr h
    unfold procLoop at h
    rcases hp : processOne opts doc idList (doc.headings.getD i default) with e | r
    · rw [hp] at h; cases h
    · rcases r with _ | ⟨el', il', o2, eid⟩
      · rw [hp] at h
        exact ih _ _ _ _ _ _ _ _ h
      · rw [hp] at h
        obtain ⟨f1, f2, f3, f4, f5, f6, f7⟩ := ih _ _ _ _ _ _ _ _ h
        have hlt := processOne_keep_index_lt opts doc idList i el' il' o2 eid hp
        refine ⟨f1, f2, f3, f4, f5, ?_, ?_⟩
        · rw [f6]
          show (doc.headings.set i el').length = doc.headings.length
          exact List.length_set doc.headings i el'
        · intro j
          rw [f7 j]
          by_cases hji : j = i
          · subst hji
            show ((doc.headings.set j el').getD j default).tag
                = (doc.headings.getD j default).tag
            rw [getD_set_self _ _ _ _ hlt]
            exact processOne_keep_tag opts doc idList _ el' il' o2 eid hp
          · show ((doc.headings.set i el').getD j default).tag
                = (doc.headings.getD j default).tag
            rw [getD_set_ne _ _ _ _ _ hji]

/-- A pass over a batch whose every element is already anchored leaves the
document, the options and the registry untouched and marks every batch
position for exclusion. -/
theorem procLoop_skip_run :
    ∀ (ixs : List Nat) (doc : Doc) (opts : Opts) (idList : List String)
      (pos : Nat) (drops : List Nat),
      (∀ i ∈ ixs, hasAnchorJSLink (doc.headings.getD i default) = .ok true) →
      procLoop doc opts idList ixs pos drops =
        .ok (doc, opts, drops ++ List.range' pos ixs.length) := by
  intro ixs
  induction ixs with
  | nil =>
    intro doc opts idList pos drops _
    simp [procLoop]
  | cons i rest ih =>
    intro doc opts idList pos drops hanch
    unfold procLoop
    rw [processOne_drop_of_anchored opts doc idList _ (hanch i (List.mem_cons_self i rest))]
    rw [ih doc opts idList (pos + 1) (drops ++ [pos])
      (fun j hj => hanch j (List.mem_cons_of_mem i hj))]
    rw [List.length_cons, List.range'_succ pos rest.length 1, List.append_assoc]
    rfl

/-- Dropping every position (splice with decreasing compensation) empties
the batch. -/
theorem dropIndexes_range' :
    ∀ (n k : Nat) (l : List Nat), l.length = n →
      (List.range' k n).foldl
        (fun acc d => (spliceAt acc.1 (d - acc.2), acc.2 + 1)) (l, k) = ([], k + n) := by
  intro n
  induction n with
  | zero =>
    intro k l hl
    rw [List.length_eq_zero] at hl
    subst hl
    rfl
  | succ n ih =>
    intro k l hl
    rw [List.range'_succ k n 1, List.foldl_cons]
    have hsp : spliceAt l (k - k) = l.tail := by
      simp [spliceAt, List.drop_one]
    rw [hsp]
    have hlen : l.tail.length = n := by
      rw [List.length_tail, hl]
      omega
    rw [ih (k + 1) l.tail hlen]
    have : k + 1 + n = k + (n + 1) := by omega
    rw [this]

theorem dropIndexes_all (l : List Nat) :
    dropIndexes l (List.range' 0 l.length) = [] := by
  unfold dropIndexes
  rw [dropIndexes_range' l.length 0 l rfl]

/-- `_addBaselineStyles` touches nothing but the style marker. -/
theorem addBaselineStyles_headings (doc : Doc) :
    (_addBaselineStyles doc).headings = doc.headings := by
  unfold _addBaselineStyles
  split <;> rfl

theorem addBaselineStyles_injected (doc : Doc) :
    (_addBaselineStyles doc).styleInjected = true := by
  unfold _addBaselineStyles
  split
  · next hc => exact hc
  · rfl

theorem addBaselineStyles_of_injected (doc : Doc) (h : doc.styleInjected = true) :
    _addBaselineStyles doc = doc := by
  unfold _addBaselineStyles
  rw [h]
  rfl

/-- Selector resolution depends only on the number of headings and their
tag names. -/
theorem resolve_congr (d1 d2 : Doc) (sel : Selector)
    (hlen : d1.headings.length = d2.headings.length)
    (htags : ∀ j, (d1.headings.getD j default).tag = (d2.headings.getD j default).tag) :
    resolve d1 sel = resolve d2 sel := by
  cases sel with
  | nodes ixs => rfl
  | tags ts =>
    unfold resolve
    rw [hlen]
    apply List.filter_congr
    intro i _
    rw [htags i]

/-- Unfolding equation for `Anchor.add` with the local `let`s expanded. -/
theorem Anchor.add_eq (a : Anchor) (doc : Doc) (sel : Option Selector) :
    Anchor.add a doc sel =
      (if (resolve doc (sel.getD defaultSelector)).length = 0 then
        .ok ({ opts := _applyRemainingDefaultOptions a.opts, els := a.els }, doc)
      else
        match procLoop (_addBaselineStyles doc) (_applyRemainingDefaultOptions a.opts)
            ((_addBaselineStyles doc).otherIds ++
              (_addBaselineStyles doc).headings.filterMap Elem.id)
            (resolve doc (sel.getD defaultSelector)) 0 [] with
        | .error e => .error e
        | .ok (docF, optsF, drops) =>
          .ok ({ opts := optsF,
                 els := a.els ++
                   dropIndexes (resolve doc (sel.getD defaultSelector)) drops },
            docF)) := rfl

/-- C3: scanning the same selector twice in succession is idempotent on the
document.  If the first `add` succeeded, a second `add` on its output
succeeds and returns the document *unchanged*: every element of the batch is
detected as already anchored and skipped, so no second anchor node is
created, no id attribute is changed, and the tracked element list also stays
as it was (only the options object has its defaults re-applied). -/
theorem add_idempotent (a : Anchor) (doc : Doc) (sel : Option Selector)
    (a' : Anchor) (doc' : Doc)
    (h : Anchor.add a doc sel = .ok (a', doc')) :
    Anchor.add a' doc' sel =
      .ok ({ opts := _applyRemainingDefaultOptions a'.opts, els := a'.els }, doc') := by
  rw [Anchor.add_eq] at h
  rw [Anchor.add_eq]
  by_cases hix : (resolve doc (sel.getD defaultSelector)).length = 0
  · rw [if_pos hix] at h
    simp only [Except.ok.injEq, Prod.mk.injEq] at h
    obtain ⟨h1, h2⟩ := h
    subst h2
    rw [if_pos hix, ← h1]
  · rw [if_neg hix] at h
    rcases hp : procLoop (_addBaselineStyles doc) (_applyRemainingDefaultOptions a.opts)
        ((_addBaselineStyles doc).otherIds ++
          (_addBaselineStyles doc).headings.filterMap Elem.id)
        (resolve doc (sel.getD defaultSelector)) 0 [] with e | ⟨docF, optsF, drops⟩
    · rw [hp] at h; cases h
    · rw [hp] at h
      simp only [Except.ok.injEq, Prod.mk.injEq] at h
      obtain ⟨ha', hdoc'⟩ := h
      obtain ⟨f1, f2, f3, f4, f5, f6, f7⟩ :=
        procLoop_preserved_fields _ _ _ _ _ _ _ _ _ hp
      have hres : resolve docF (sel.getD defaultSelector)
          = resolve doc (sel.getD defaultSelector) := by
        apply resolve_congr
        · rw [f6, addBaselineStyles_headings]
        · intro j
          rw [f7 j, addBaselineStyles_headings]
      have hanch : ∀ i ∈ resolve doc (sel.getD defaultSelector),
          hasAnchorJSLink (docF.headings.getD i default) = .ok true :=
        procLoop_ok_anchors _ _ _ _ _ _ _ _ _ hp
      have hsty : docF.styleInjected = true := by
        rw [f4]
        exact addBaselineStyles_injected doc
      subst hdoc'
      rw [if_neg (by rw [hres]; exact hix)]
      rw [addBaselineStyles_of_injected docF hsty, hres]
      rw [procLoop_skip_run _ _ _ _ _ _ hanch, List.nil_append]
      show (Except.ok
          (Anchor.mk (_applyRemainingDefaultOptions a'.opts)
            (a'.els ++ dropIndexes (resolve doc (sel.getD defaultSelector))
              (List.range' 0 (resolve doc (sel.getD defaultSelector)).length)), docF)
          : Except Unit (Anchor × Doc))
        = Except.ok (Anchor.mk (_applyRemainingDefaultOptions a'.opts) a'.els, docF)
      rw [dropIndexes_all, List.append_nil]

theorem add_idempotent_witness :
    Anchor.add afterFirstScan.1 afterFirstScan.2 none =
      .ok ({ opts := _applyRemainingDefaultOptions afterFirstScan.1.opts,
             els := afterFirstScan.1.els }, afterFirstScan.2) :=
  add_idempotent freshAnchor docOneHeading none afterFirstScan.1 afterFirstScan.2
    (by decide)
